import Mathlib

/-!
# Verification of `src/rotatingCaliper.ts`

Shallow embedding of the rotating-calipers minimum-area-rectangle routine.
Numbers are modelled by exact rationals (`ℚ`); the transcendental parts of the
final geometry extraction (`Math.sqrt` inside `Vector2.normalize`, and
`Math.atan2`) are modelled over `ℝ`.

Mutation in the source is modelled by explicit state passing:
* a `Box` is threaded through `computeAngles` (which mutates `box.u` in place
  via three.js `negate()`) and `updateSupport`;
* the module-level scratch vectors `perpE` (line 70) and `u1` (line 112) are
  modelled by a `ModuleState` record that every invocation of `rotatingCaliper`
  receives and returns: in the source these are `const`s at module scope, so
  their contents persist across invocations;
* the persistent 4-slot `angleInfo` buffer of the orchestrator (line 29) is
  modelled by a `List (Option AngleInfo)`: a `none` slot is a hole of the
  JavaScript sparse array `new Array(4)`, and slots beyond the current
  `angleNum` keep stale values from earlier iterations, exactly as in the
  source (`sortAngles` maps and sorts that very array; JavaScript `sort` is
  stable and moves holes to the end, so it is modelled by a stable insertion
  sort of the indices of the defined slots);
* the caller's `hull` argument is threaded through `runCaliper` and returned,
  reflecting every write the source performs on it (the source only reads it,
  at line 22).
-/

set_option maxRecDepth 10000

namespace RotCal

/-- three.js `Vector2`, restricted to the operations the source uses,
over exact rationals. -/
structure Vec2 where
  x : ℚ
  y : ℚ
deriving DecidableEq, Repr

/-- `a.clone().sub(b)` / `new Vector2().subVectors(a, b)`. -/
def Vec2.sub (a b : Vec2) : Vec2 := ⟨a.x - b.x, a.y - b.y⟩

/-- `a.dot(b)`. -/
def Vec2.dot (a b : Vec2) : ℚ := a.x * b.x + a.y * b.y

/-- `a.negate()` (the source applies it in place; the embedding passes the
updated vector explicitly). -/
def Vec2.negV (a : Vec2) : Vec2 := ⟨-a.x, -a.y⟩

/-- `new Vector2(-a.y, a.x)` / `v.set(-a.y, a.x)`: the +90° rotation. -/
def Vec2.perp (a : Vec2) : Vec2 := ⟨-a.y, a.x⟩

/-- The `Box` record of the source (line 10): `u = [u0, u1]` is split in two
fields; `index` is the 4-element support-index array. -/
structure Box where
  u0 : Vec2
  u1 : Vec2
  index : List ℕ
  sqrLenU0 : ℚ
  area : ℚ
deriving DecidableEq, Repr

/-- The `AngleInfo` record of the source (line 16). -/
structure AngleInfo where
  sinThetaSqr : ℚ
  indexOfBox : ℕ
deriving DecidableEq, Repr

/-- The module-scope mutable vectors: `const perpE = new Vector2(0, 0)`
(line 70) and `const u1 = new Vector2()` (line 112).  They live outside every
invocation, so the embedding threads them in and out of each call. -/
structure ModuleState where
  perpE : Vec2
  u1g : Vec2
deriving DecidableEq, Repr

/-- `vertices[i]` (reads are always in range in the source's intended use;
out-of-range reads get a default, see the per-claim hypotheses). -/
def vAt (vs : List Vec2) (i : ℕ) : Vec2 := vs.getD i ⟨0, 0⟩

/-- `box.index[k]`. -/
def idxAt (b : Box) (k : ℕ) : ℕ := b.index.getD k 0

/-- The projection `v.set(box.u[0].dot(diff), box.u[1].dot(diff))` of a vertex
onto the `(u0, u1)` basis relative to `origin` (lines 189-190). -/
def projV (u0 u1 origin p : Vec2) : Vec2 := ⟨u0.dot (p.sub origin), u1.dot (p.sub origin)⟩

/-- Running state of the `forEach` scan of `smallestBox` (lines 188-206):
the three mutable support indices `box.index[1..3]` and the three mutable
support projections `support[1..3]`. -/
structure ScanState where
  idx1 : ℕ
  s1 : Vec2
  idx2 : ℕ
  s2 : Vec2
  idx3 : ℕ
  s3 : Vec2
deriving DecidableEq, Repr

/-- One iteration of the `forEach` scan body of `smallestBox`
(lines 188-206), for vertex `p` at position `i`. -/
def scanStep (u0 u1 origin : Vec2) (st : ScanState) (i : ℕ) (p : Vec2) : ScanState :=
  let v := projV u0 u1 origin p
  let st1 := if v.x > st.s1.x ∨ (v.x = st.s1.x ∧ v.y > st.s1.y) then
    { st with idx1 := i, s1 := v } else st
  let st2 := if v.y > st1.s2.y ∨ (v.y = st1.s2.y ∧ v.x < st1.s2.x) then
    { st1 with idx2 := i, s2 := v } else st1
  if v.x < st2.s3.x ∨ (v.x = st2.s3.x ∧ v.y < st2.s3.y) then
    { st2 with idx3 := i, s3 := v } else st2

/-- The `vertices.forEach` scan of `smallestBox`, processing the vertices in
order, numbering them from `i`. -/
def scanGo (u0 u1 origin : Vec2) : ℕ → List Vec2 → ScanState → ScanState
  | _, [], st => st
  | i, p :: l, st => scanGo u0 u1 origin (i + 1) l (scanStep u0 u1 origin st i p)

/-- `smallestBox` (lines 172-212). -/
def smallestBox (i0 i1 : ℕ) (vs : List Vec2) : Box :=
  let u0 := (vAt vs i1).sub (vAt vs i0)
  let u1 := u0.perp
  let sqrLenU0 := u0.dot u0
  let origin := vAt vs i1
  let st := scanGo u0 u1 origin 0 vs ⟨i1, ⟨0, 0⟩, i1, ⟨0, 0⟩, i1, ⟨0, 0⟩⟩
  { u0 := u0, u1 := u1, index := [i1, st.idx1, st.idx2, st.idx3], sqrLenU0 := sqrLenU0,
    area := (st.s1.x - st.s3.x) * st.s2.y / sqrLenU0 }

/-- One iteration `(k0, k1)` of the loop of `computeAngles` (lines 73-90).
`box.u[k0 & 1].negate()` mutates the box in place, so the box is part of the
running state; `perpE.set(-e.y, e.x)` writes the module-scope vector. -/
def caStep (vs : List Vec2) (st : Box × ModuleState × List AngleInfo) (kk : ℕ × ℕ) :
    Box × ModuleState × List AngleInfo :=
  let b := st.1
  let ms := st.2.1
  let acc := st.2.2
  let k0 := kk.1
  let k1 := kk.2
  if idxAt b k0 ≠ idxAt b k1 then
    let b := if k0.land 2 ≠ 0 then
        (if k0.land 1 = 0 then { b with u0 := b.u0.negV } else { b with u1 := b.u1.negV })
      else b
    let d := if k0.land 1 = 0 then b.u0 else b.u1
    let j0 := idxAt b k0
    let j1 := if j0 + 1 = vs.length then 0 else j0 + 1
    let e := (vAt vs j1).sub (vAt vs j0)
    let pe := e.perp
    let ms := { ms with perpE := pe }
    let dp := pe.dot d
    let dsqrslen := d.dot d
    let esqrlen := e.dot e
    (b, ms, acc ++ [⟨dp * dp / (esqrlen * dsqrslen), k0⟩])
  else (b, ms, acc)

/-- `computeAngles` (lines 71-92): the loop
`for (let k0 = 3, k1 = 0; k1 < 4; k0 = k1++)` visits the side pairs
`(3,0), (0,1), (1,2), (2,3)` in that order.  Returns the (possibly
negated-in-place) box, the module state, and the emitted candidate list;
the source's boolean result is `candidate list ≠ []`. -/
def computeAngles (vs : List Vec2) (b : Box) (ms : ModuleState) :
    Box × ModuleState × List AngleInfo :=
  [(3, 0), (0, 1), (1, 2), (2, 3)].foldl (caStep vs) (b, ms, [])

/-- `angleInfo[i]` on the persistent 4-slot buffer; the inner default is never
reached on defined slots. -/
def getAngle (buf : List (Option AngleInfo)) (i : ℕ) : AngleInfo :=
  (buf.getD i none).getD ⟨0, 0⟩

/-- `a` may be placed before `b` by the comparator of `sortAngles`
(lines 99-107): the comparator value is `≤ 0`.  On the tie branch
(`angleNum < 4` and equal `sinThetaSqr`) the comparator is
`b.indexOfBox - a.indexOfBox`, otherwise `a.sinThetaSqr - b.sinThetaSqr`. -/
def leCmp (anum : ℕ) (a b : AngleInfo) : Bool :=
  if anum < 4 ∧ a.sinThetaSqr = b.sinThetaSqr then decide (b.indexOfBox ≤ a.indexOfBox)
  else decide (a.sinThetaSqr ≤ b.sinThetaSqr)

/-- `sortAngles` (lines 94-109).  `angleInfo.map((a, index) => index)` keeps
holes where the buffer has holes; ECMAScript `sort` sorts the defined values
stably by the comparator and moves holes to the end.  The model returns the
sorted list of defined slot indices (the trailing holes are never read by
`updateSupport`, which only reads `sort[k]` for `k < angleNum ≤` the number
of defined slots). -/
def sortAngles (buf : List (Option AngleInfo)) (anum : ℕ) : List ℕ :=
  if anum = 0 then [0, 1, 2, 3]
  else
    let defined := (List.range buf.length).filter (fun i => (buf.getD i none).isSome)
    List.insertionSort (fun i j => leCmp anum (getAngle buf i) (getAngle buf j) = true) defined

/-- `box.index[...] + 1` with the wrap of lines 128-131. -/
def wrapSucc (n i : ℕ) : ℕ := if i + 1 = n then 0 else i + 1

/-- One iteration of the advance loop of `updateSupport` (lines 125-134),
carrying `(box, parallel)`. -/
def advanceStep (buf : List (Option AngleInfo)) (srt : List ℕ) (vs : List Vec2)
    (minAngle : AngleInfo) (bp : Box × ℕ) (k : ℕ) : Box × ℕ :=
  let curAngle := getAngle buf (srt.getD k 0)
  if curAngle.sinThetaSqr = minAngle.sinThetaSqr then
    let b := bp.1
    let ni := wrapSucc vs.length (idxAt b curAngle.indexOfBox)
    ({ b with index := b.index.set curAngle.indexOfBox ni }, bp.2 + 1)
  else bp

/-- The advance loop of `updateSupport` (lines 123-134): advances the support
index of every side whose candidate angle equals the minimal one and counts
them in `parallel`. -/
def advanceAll (buf : List (Option AngleInfo)) (anum : ℕ) (srt : List ℕ) (vs : List Vec2)
    (b : Box) : Box × ℕ :=
  (List.range anum).foldl (advanceStep buf srt vs (getAngle buf (srt.getD 0 0))) (b, 0)

/-- `updateSupport` (lines 113-170).  Returns the source's boolean together
with the box, the visited array and the module state as the call leaves them
(`box.u[1] = u1.set(...)` at line 160 writes both the box and the module-scope
vector `u1`). -/
def updateSupport (buf : List (Option AngleInfo)) (anum : ℕ) (srt : List ℕ) (vs : List Vec2)
    (visited : List Bool) (b : Box) (ms : ModuleState) :
    Bool × Box × List Bool × ModuleState :=
  let minAngle := getAngle buf (srt.getD 0 0)
  let bp := advanceAll buf anum srt vs b
  let b1 := bp.1
  let parallel := bp.2
  let bottom := idxAt b1 minAngle.indexOfBox
  if visited.getD bottom false then (false, b1, visited, ms)
  else
    let visited1 := (List.range parallel).foldl
      (fun vis k => vis.set (idxAt b1 (getAngle buf (srt.getD k 0)).indexOfBox) true) visited
    let nextIndex := (List.range 4).map (fun k => idxAt b1 ((minAngle.indexOfBox + k) % 4))
    let b2 := { b1 with index := nextIndex }
    let j1 := idxAt b2 0
    let j0 := if j1 = 0 then vs.length - 1 else j1 - 1
    let u0 := (vAt vs j1).sub (vAt vs j0)
    let u1v := u0.perp
    let ms1 := { ms with u1g := u1v }
    let sqr := u0.dot u0
    let diff1 := (vAt vs (idxAt b2 1)).sub (vAt vs (idxAt b2 3))
    let diff2 := (vAt vs (idxAt b2 2)).sub (vAt vs (idxAt b2 0))
    let area := (u0.dot diff1 * u1v.dot diff2) / sqr
    (true, { b2 with u0 := u0, u1 := u1v, sqrLenU0 := sqr, area := area }, visited1, ms1)

/-- The mutable locals of the orchestrator loop (lines 25-42): `minBox`,
the working `box`, `visited`, the persistent `angleInfo` buffer and the
module-scope vectors. -/
structure LoopSt where
  minBox : Box
  box : Box
  visited : List Bool
  buf : List (Option AngleInfo)
  ms : ModuleState
deriving Repr

/-- `computeAngles` writes `angleInfo[0..angleNum-1]`; slots beyond keep their
previous (possibly stale) contents. -/
def writeBuf (buf : List (Option AngleInfo)) (cands : List AngleInfo) :
    List (Option AngleInfo) :=
  cands.map some ++ buf.drop cands.length

/-- The orchestrator loop `for (let i = 0; i < vertices.length; ++i)`
(lines 31-42), with the two `break`s; `minBox = cloneDeep(box)` is a value
copy. -/
def caliperLoop (vs : List Vec2) : ℕ → LoopSt → LoopSt
  | 0, st => st
  | fuel + 1, st =>
    let r := computeAngles vs st.box st.ms
    let box := r.1
    let ms := r.2.1
    let cands := r.2.2
    let buf := writeBuf st.buf cands
    if cands.length = 0 then { st with box := box, ms := ms, buf := buf }
    else
      let srt := sortAngles buf cands.length
      let u := updateSupport buf cands.length srt vs st.visited box ms
      if u.1 then
        let box2 := u.2.1
        let minBox := if box2.area ≤ st.minBox.area then box2 else st.minBox
        caliperLoop vs fuel
          { minBox := minBox, box := box2, visited := u.2.2.1, buf := buf, ms := u.2.2.2 }
      else { st with box := u.2.1, visited := u.2.2.1, buf := buf, ms := u.2.2.2 }

/-- Line 22: `hull.map((point) => new Vector2(point[0], point[1]))`. -/
def mkVertices (hull : List (ℚ × ℚ)) : List Vec2 := hull.map (fun p => ⟨p.1, p.2⟩)

/-- The exact-arithmetic part of `rotatingCaliper` (lines 21-42): builds the
vertex and visited arrays, runs the loop, and returns the best box, the
module state as the call leaves it, and the caller's hull array as the call
leaves it (the source never writes to `hull`; its only use is the read in
`mkVertices`). -/
def runCaliper (hull : List (ℚ × ℚ)) (ms : ModuleState) :
    Box × ModuleState × List (ℚ × ℚ) :=
  let vs := mkVertices hull
  let minBox := smallestBox (vs.length - 1) 0 vs
  let visited := (List.replicate vs.length false).set (idxAt minBox 0) true
  let st := caliperLoop vs vs.length
    { minBox := minBox, box := minBox, visited := visited,
      buf := List.replicate 4 none, ms := ms }
  (st.minBox, st.ms, hull)

/-- three.js `v.length()`: `Math.sqrt(x * x + y * y)`. -/
noncomputable def qlen (v : Vec2) : ℝ := Real.sqrt ((v.x : ℝ) * v.x + (v.y : ℝ) * v.y)

/-- three.js `v.clone().normalize()`: `divideScalar(length() || 1)` — a zero
vector is left unchanged. -/
noncomputable def normalizeV (v : Vec2) : ℝ × ℝ :=
  if qlen v = 0 then ((v.x : ℝ), (v.y : ℝ)) else ((v.x : ℝ) / qlen v, (v.y : ℝ) / qlen v)

/-- JavaScript `Math.atan2(y, x)` on rational arguments (ℚ has no negative
zero, so the `±0` branches collapse to the `y = 0` one). -/
noncomputable def jsAtan2 (y x : ℚ) : ℝ :=
  if 0 < x then Real.arctan ((y : ℝ) / (x : ℝ))
  else if x < 0 then
    (if 0 ≤ y then Real.arctan ((y : ℝ) / (x : ℝ)) + Real.pi
     else Real.arctan ((y : ℝ) / (x : ℝ)) - Real.pi)
  else (if 0 < y then Real.pi / 2 else if y < 0 then -(Real.pi / 2) else 0)

/-- `normal.dot(diff)` with a real normal and a rational vector. -/
noncomputable def dotR (a : ℝ × ℝ) (b : Vec2) : ℝ := a.1 * (b.x : ℝ) + a.2 * (b.y : ℝ)

/-- The record returned by `rotatingCaliper` (lines 62-67); `center` is the
`toArray()` pair. -/
structure RectResult where
  width : ℝ
  height : ℝ
  center : ℝ × ℝ
  angle : ℝ

/-- The final geometry extraction of `rotatingCaliper` (lines 43-60). -/
noncomputable def extract (vs : List Vec2) (minBox : Box) : RectResult :=
  let normalU0 := normalizeV minBox.u0
  let normalU1 := normalizeV minBox.u1
  let lastSupport := vAt vs (idxAt minBox 3)
  let originIdx := if idxAt minBox 0 = 0 then vs.length - 1 else idxAt minBox 0 - 1
  let origin := vAt vs originIdx
  let pr := dotR normalU0 (lastSupport.sub origin)
  let rectVertice := ((origin.x : ℝ) + normalU0.1 * pr, (origin.y : ℝ) + normalU0.2 * pr)
  let diff0 := (vAt vs (idxAt minBox 1)).sub (vAt vs (idxAt minBox 3))
  let diff1 := (vAt vs (idxAt minBox 2)).sub (vAt vs (idxAt minBox 0))
  let width := |dotR normalU0 diff0|
  let height := |dotR normalU1 diff1|
  let angle := jsAtan2 minBox.u0.y minBox.u0.x
  { width := width, height := height,
    center := (rectVertice.1 + normalU0.1 * (width * (1 / 2)) + normalU1.1 * (height * (1 / 2)),
               rectVertice.2 + normalU0.2 * (width * (1 / 2)) + normalU1.2 * (height * (1 / 2))),
    angle := angle }

/-- `rotatingCaliper` (lines 21-68), with the module-scope scratch vectors and
the caller's hull array passed explicitly. -/
noncomputable def rotatingCaliper (hull : List (ℚ × ℚ)) (ms : ModuleState) :
    RectResult × ModuleState × List (ℚ × ℚ) :=
  let r := runCaliper hull ms
  (extract (mkVertices hull) r.1, r.2.1, r.2.2)

/-- The initial contents of the module-scope vectors at module load
(`new Vector2(0, 0)` and `new Vector2()`). -/
def msInit : ModuleState := ⟨⟨0, 0⟩, ⟨0, 0⟩⟩

/-- The area of the box recomputed from its current index array and `(u0,u1)`
basis by the projection formula of `updateSupport` (lines 164-168). -/
def recomputeArea (vs : List Vec2) (b : Box) : ℚ :=
  (b.u0.dot ((vAt vs (idxAt b 1)).sub (vAt vs (idxAt b 3))) *
   b.u1.dot ((vAt vs (idxAt b 2)).sub (vAt vs (idxAt b 0)))) / b.sqrLenU0

/-- The hull edge vector `vertex[i] − vertex[i − 1 mod n]`. -/
def edgeVec (vs : List Vec2) (i : ℕ) : Vec2 :=
  (vAt vs i).sub (vAt vs (if i = 0 then vs.length - 1 else i - 1))

/-! ## Concrete inputs used by the claims -/

/-- The axis-aligned square of spec scenario 1. -/
def sqHull : List (ℚ × ℚ) := [(0, 0), (2, 0), (2, 2), (0, 2)]

/-- A 2-point degenerate input. -/
def twoHull : List (ℚ × ℚ) := [(0, 0), (1, 0)]

/-- A strictly convex CCW quadrilateral on which `smallestBox` produces
`index = [0, 1, 2, 2]` (the top and left supports coincide), so the side pair
`(2, 3)` of `computeAngles` is degenerate while `(3, 0)` is not. -/
def quadHull : List (ℚ × ℚ) := [(0, 0), (1, 0), (-2, 3), (-2, 1)]

/-- A strictly convex CCW triangle on which the run of `rotatingCaliper`
reads a stale slot of the persistent `angleInfo` buffer: in the second loop
iteration only 2 candidates are produced, but slot 2 still holds the
candidate written in the first iteration, whose `sinThetaSqr` is smaller
than both fresh ones, so it is selected as the minimal angle. -/
def triHull : List (ℚ × ℚ) := [(5, -5), (7, 4), (7, 6)]


/-! ## The scan of `smallestBox`: support extremality and synchronisation -/

/-- Channel-1 order: `a` loses to (or ties not better than) `b` under
"maximal projection-x, ties broken by larger projection-y". -/
def lexX (a b : Vec2) : Prop := a.x < b.x ∨ (a.x = b.x ∧ a.y ≤ b.y)

/-- Channel-2 order: `a` loses to `b` under "maximal projection-y, ties
broken by smaller projection-x". -/
def lexY (a b : Vec2) : Prop := a.y < b.y ∨ (a.y = b.y ∧ b.x ≤ a.x)

lemma lexX_refl (a : Vec2) : lexX a a := Or.inr ⟨rfl, le_refl _⟩

lemma lexX_trans {a b c : Vec2} (h1 : lexX a b) (h2 : lexX b c) : lexX a c := by
  rcases h1 with h1 | ⟨h1, h1y⟩ <;> rcases h2 with h2 | ⟨h2, h2y⟩
  · exact Or.inl (h1.trans h2)
  · exact Or.inl (h2 ▸ h1)
  · exact Or.inl (h1 ▸ h2)
  · exact Or.inr ⟨h1.trans h2, h1y.trans h2y⟩

lemma lexY_refl (a : Vec2) : lexY a a := Or.inr ⟨rfl, le_refl _⟩

lemma lexY_trans {a b c : Vec2} (h1 : lexY a b) (h2 : lexY b c) : lexY a c := by
  rcases h1 with h1 | ⟨h1, h1y⟩ <;> rcases h2 with h2 | ⟨h2, h2y⟩
  · exact Or.inl (h1.trans h2)
  · exact Or.inl (h2 ▸ h1)
  · exact Or.inl (h1 ▸ h2)
  · exact Or.inr ⟨h1.trans h2, h2y.trans h1y⟩

/-- Channel-1 fields of one scan step. -/
lemma scanStep_ch1 (u0 u1 o : Vec2) (st : ScanState) (i : ℕ) (p : Vec2) :
    (scanStep u0 u1 o st i p).s1 =
      (if (projV u0 u1 o p).x > st.s1.x ∨
          ((projV u0 u1 o p).x = st.s1.x ∧ (projV u0 u1 o p).y > st.s1.y)
       then projV u0 u1 o p else st.s1) ∧
    (scanStep u0 u1 o st i p).idx1 =
      (if (projV u0 u1 o p).x > st.s1.x ∨
          ((projV u0 u1 o p).x = st.s1.x ∧ (projV u0 u1 o p).y > st.s1.y)
       then i else st.idx1) := by
  unfold scanStep
  dsimp only
  split_ifs <;> exact ⟨rfl, rfl⟩

/-- Channel-2 fields of one scan step (the channel-1 update leaves `s2` and
`idx2` unchanged, so the condition can be read off the incoming state). -/
lemma scanStep_ch2 (u0 u1 o : Vec2) (st : ScanState) (i : ℕ) (p : Vec2) :
    (scanStep u0 u1 o st i p).s2 =
      (if (projV u0 u1 o p).y > st.s2.y ∨
          ((projV u0 u1 o p).y = st.s2.y ∧ (projV u0 u1 o p).x < st.s2.x)
       then projV u0 u1 o p else st.s2) ∧
    (scanStep u0 u1 o st i p).idx2 =
      (if (projV u0 u1 o p).y > st.s2.y ∨
          ((projV u0 u1 o p).y = st.s2.y ∧ (projV u0 u1 o p).x < st.s2.x)
       then i else st.idx2) := by
  unfold scanStep
  dsimp only
  split_ifs <;> exact ⟨rfl, rfl⟩

/-- Channel-3 fields of one scan step. -/
lemma scanStep_ch3 (u0 u1 o : Vec2) (st : ScanState) (i : ℕ) (p : Vec2) :
    (scanStep u0 u1 o st i p).s3 =
      (if (projV u0 u1 o p).x < st.s3.x ∨
          ((projV u0 u1 o p).x = st.s3.x ∧ (projV u0 u1 o p).y < st.s3.y)
       then projV u0 u1 o p else st.s3) ∧
    (scanStep u0 u1 o st i p).idx3 =
      (if (projV u0 u1 o p).x < st.s3.x ∨
          ((projV u0 u1 o p).x = st.s3.x ∧ (projV u0 u1 o p).y < st.s3.y)
       then i else st.idx3) := by
  unfold scanStep
  dsimp only
  split_ifs <;> exact ⟨rfl, rfl⟩

/-- Channel 1 of the scan: the final `s1` dominates (in `lexX`) the
projections of all scanned vertices, never decreases, and is either the
initial pair or the projection of a scanned vertex. -/
lemma scanGo_ch1 (u0 u1 o : Vec2) (vs : List Vec2) :
    ∀ (l : List Vec2) (i : ℕ) (st : ScanState),
      (∀ k, k < l.length → l.getD k ⟨0, 0⟩ = vAt vs (i + k)) →
      (∀ k, k < l.length →
        lexX (projV u0 u1 o (vAt vs (i + k))) (scanGo u0 u1 o i l st).s1) ∧
      lexX st.s1 (scanGo u0 u1 o i l st).s1 ∧
      (((scanGo u0 u1 o i l st).s1 = st.s1 ∧ (scanGo u0 u1 o i l st).idx1 = st.idx1) ∨
        ∃ k, k < l.length ∧ (scanGo u0 u1 o i l st).idx1 = i + k ∧
          (scanGo u0 u1 o i l st).s1 = projV u0 u1 o (vAt vs (i + k))) := by
  intro l
  induction l with
  | nil =>
    intro i st _
    exact ⟨fun k hk => absurd hk (Nat.not_lt_zero k), lexX_refl _, Or.inl ⟨rfl, rfl⟩⟩
  | cons p l ih =>
    intro i st hl
    have h0 : p = vAt vs i := by
      have := hl 0 (Nat.succ_pos _)
      simpa using this
    have hl2 : ∀ k, k < l.length → l.getD k ⟨0, 0⟩ = vAt vs (i + 1 + k) := by
      intro k hk
      have := hl (k + 1) (by simpa using Nat.succ_lt_succ hk)
      simpa [Nat.add_assoc, Nat.add_comm 1 k] using this
    have hstep := scanStep_ch1 u0 u1 o st i p
    have ihall := ih (i + 1) (scanStep u0 u1 o st i p) hl2
    have hgo : scanGo u0 u1 o i (p :: l) st =
        scanGo u0 u1 o (i + 1) l (scanStep u0 u1 o st i p) := rfl
    rw [hgo]
    set st1 := scanStep u0 u1 o st i p with hst1
    -- the step either keeps channel 1 or improves it strictly
    have hmono : lexX st.s1 st1.s1 := by
      rcases hstep with ⟨hs, _⟩
      rw [hs]
      split_ifs with hc
      · rcases hc with hc | ⟨hc, hcy⟩
        · exact Or.inl hc
        · exact Or.inr ⟨hc.symm, le_of_lt hcy⟩
      · exact lexX_refl _
    have hpdom : lexX (projV u0 u1 o p) st1.s1 := by
      rcases hstep with ⟨hs, _⟩
      rw [hs]
      split_ifs with hc
      · exact lexX_refl _
      · push_neg at hc
        rcases lt_or_eq_of_le hc.1 with h | h
        · exact Or.inl h
        · exact Or.inr ⟨h, hc.2 h⟩
    refine ⟨?_, ?_, ?_⟩
    · intro k hk
      match k with
      | 0 =>
        have : vAt vs (i + 0) = p := by rw [Nat.add_zero, h0]
        rw [this]
        exact lexX_trans hpdom ihall.2.1
      | k + 1 =>
        have := ihall.1 k (by simpa using Nat.lt_of_succ_lt_succ hk)
        simpa [Nat.add_assoc, Nat.add_comm 1 k] using this
    · exact lexX_trans hmono ihall.2.1
    · rcases ihall.2.2 with ⟨he, hi⟩ | ⟨k, hk, hik, hsk⟩
      · rcases hstep with ⟨hs, hidx⟩
        by_cases hc : (projV u0 u1 o p).x > st.s1.x ∨
            ((projV u0 u1 o p).x = st.s1.x ∧ (projV u0 u1 o p).y > st.s1.y)
        · refine Or.inr ⟨0, Nat.succ_pos _, ?_, ?_⟩
          · rw [hi, hidx, if_pos hc, Nat.add_zero]
          · rw [he, hs, if_pos hc, Nat.add_zero, h0]
        · refine Or.inl ⟨?_, ?_⟩
          · rw [he, hs, if_neg hc]
          · rw [hi, hidx, if_neg hc]
      · exact Or.inr ⟨k + 1, by simpa using Nat.succ_lt_succ hk,
          by rw [hik]; omega, by rw [hsk]; congr 2; omega⟩

/-- Channel 2 of the scan, as `scanGo_ch1`. -/
lemma scanGo_ch2 (u0 u1 o : Vec2) (vs : List Vec2) :
    ∀ (l : List Vec2) (i : ℕ) (st : ScanState),
      (∀ k, k < l.length → l.getD k ⟨0, 0⟩ = vAt vs (i + k)) →
      (∀ k, k < l.length →
        lexY (projV u0 u1 o (vAt vs (i + k))) (scanGo u0 u1 o i l st).s2) ∧
      lexY st.s2 (scanGo u0 u1 o i l st).s2 ∧
      (((scanGo u0 u1 o i l st).s2 = st.s2 ∧ (scanGo u0 u1 o i l st).idx2 = st.idx2) ∨
        ∃ k, k < l.length ∧ (scanGo u0 u1 o i l st).idx2 = i + k ∧
          (scanGo u0 u1 o i l st).s2 = projV u0 u1 o (vAt vs (i + k))) := by
  intro l
  induction l with
  | nil =>
    intro i st _
    exact ⟨fun k hk => absurd hk (Nat.not_lt_zero k), lexY_refl _, Or.inl ⟨rfl, rfl⟩⟩
  | cons p l ih =>
    intro i st hl
    have h0 : p = vAt vs i := by
      have := hl 0 (Nat.succ_pos _)
      simpa using this
    have hl2 : ∀ k, k < l.length → l.getD k ⟨0, 0⟩ = vAt vs (i + 1 + k) := by
      intro k hk
      have := hl (k + 1) (by simpa using Nat.succ_lt_succ hk)
      simpa [Nat.add_assoc, Nat.add_comm 1 k] using this
    have hstep := scanStep_ch2 u0 u1 o st i p
    have ihall := ih (i + 1) (scanStep u0 u1 o st i p) hl2
    have hgo : scanGo u0 u1 o i (p :: l) st =
        scanGo u0 u1 o (i + 1) l (scanStep u0 u1 o st i p) := rfl
    rw [hgo]
    set st1 := scanStep u0 u1 o st i p with hst1
    have hmono : lexY st.s2 st1.s2 := by
      rcases hstep with ⟨hs, _⟩
      rw [hs]
      split_ifs with hc
      · rcases hc with hc | ⟨hc, hcy⟩
        · exact Or.inl hc
        · exact Or.inr ⟨hc.symm, le_of_lt hcy⟩
      · exact lexY_refl _
    have hpdom : lexY (projV u0 u1 o p) st1.s2 := by
      rcases hstep with ⟨hs, _⟩
      rw [hs]
      split_ifs with hc
      · exact lexY_refl _
      · push_neg at hc
        rcases lt_or_eq_of_le hc.1 with h | h
        · exact Or.inl h
        · exact Or.inr ⟨h, hc.2 h⟩
    refine ⟨?_, ?_, ?_⟩
    · intro k hk
      match k with
      | 0 =>
        have : vAt vs (i + 0) = p := by rw [Nat.add_zero, h0]
        rw [this]
        exact lexY_trans hpdom ihall.2.1
      | k + 1 =>
        have := ihall.1 k (by simpa using Nat.lt_of_succ_lt_succ hk)
        simpa [Nat.add_assoc, Nat.add_comm 1 k] using this
    · exact lexY_trans hmono ihall.2.1
    · rcases ihall.2.2 with ⟨he, hi⟩ | ⟨k, hk, hik, hsk⟩
      · rcases hstep with ⟨hs, hidx⟩
        by_cases hc : (projV u0 u1 o p).y > st.s2.y ∨
            ((projV u0 u1 o p).y = st.s2.y ∧ (projV u0 u1 o p).x < st.s2.x)
        · refine Or.inr ⟨0, Nat.succ_pos _, ?_, ?_⟩
          · rw [hi, hidx, if_pos hc, Nat.add_zero]
          · rw [he, hs, if_pos hc, Nat.add_zero, h0]
        · refine Or.inl ⟨?_, ?_⟩
          · rw [he, hs, if_neg hc]
          · rw [hi, hidx, if_neg hc]
      · exact Or.inr ⟨k + 1, by simpa using Nat.succ_lt_succ hk,
          by rw [hik]; omega, by rw [hsk]; congr 2; omega⟩

/-- Channel 3 of the scan: here the final `s3` is dominated by every scanned
projection (minimal projection-x, ties broken by smaller projection-y). -/
lemma scanGo_ch3 (u0 u1 o : Vec2) (vs : List Vec2) :
    ∀ (l : List Vec2) (i : ℕ) (st : ScanState),
      (∀ k, k < l.length → l.getD k ⟨0, 0⟩ = vAt vs (i + k)) →
      (∀ k, k < l.length →
        lexX (scanGo u0 u1 o i l st).s3 (projV u0 u1 o (vAt vs (i + k)))) ∧
      lexX (scanGo u0 u1 o i l st).s3 st.s3 ∧
      (((scanGo u0 u1 o i l st).s3 = st.s3 ∧ (scanGo u0 u1 o i l st).idx3 = st.idx3) ∨
        ∃ k, k < l.length ∧ (scanGo u0 u1 o i l st).idx3 = i + k ∧
          (scanGo u0 u1 o i l st).s3 = projV u0 u1 o (vAt vs (i + k))) := by
  intro l
  induction l with
  | nil =>
    intro i st _
    exact ⟨fun k hk => absurd hk (Nat.not_lt_zero k), lexX_refl _, Or.inl ⟨rfl, rfl⟩⟩
  | cons p l ih =>
    intro i st hl
    have h0 : p = vAt vs i := by
      have := hl 0 (Nat.succ_pos _)
      simpa using this
    have hl2 : ∀ k, k < l.length → l.getD k ⟨0, 0⟩ = vAt vs (i + 1 + k) := by
      intro k hk
      have := hl (k + 1) (by simpa using Nat.succ_lt_succ hk)
      simpa [Nat.add_assoc, Nat.add_comm 1 k] using this
    have hstep := scanStep_ch3 u0 u1 o st i p
    have ihall := ih (i + 1) (scanStep u0 u1 o st i p) hl2
    have hgo : scanGo u0 u1 o i (p :: l) st =
        scanGo u0 u1 o (i + 1) l (scanStep u0 u1 o st i p) := rfl
    rw [hgo]
    set st1 := scanStep u0 u1 o st i p with hst1
    have hmono : lexX st1.s3 st.s3 := by
      rcases hstep with ⟨hs, _⟩
      rw [hs]
      split_ifs with hc
      · rcases hc with hc | ⟨hc, hcy⟩
        · exact Or.inl hc
        · exact Or.inr ⟨hc, le_of_lt hcy⟩
      · exact lexX_refl _
    have hpdom : lexX st1.s3 (projV u0 u1 o p) := by
      rcases hstep with ⟨hs, _⟩
      rw [hs]
      split_ifs with hc
      · exact lexX_refl _
      · push_neg at hc
        rcases lt_or_eq_of_le hc.1 with h | h
        · exact Or.inl h
        · exact Or.inr ⟨h, hc.2 h.symm⟩
    refine ⟨?_, ?_, ?_⟩
    · intro k hk
      match k with
      | 0 =>
        have : vAt vs (i + 0) = p := by rw [Nat.add_zero, h0]
        rw [this]
        exact lexX_trans ihall.2.1 hpdom
      | k + 1 =>
        have := ihall.1 k (by simpa using Nat.lt_of_succ_lt_succ hk)
        simpa [Nat.add_assoc, Nat.add_comm 1 k] using this
    · exact lexX_trans ihall.2.1 hmono
    · rcases ihall.2.2 with ⟨he, hi⟩ | ⟨k, hk, hik, hsk⟩
      · rcases hstep with ⟨hs, hidx⟩
        by_cases hc : (projV u0 u1 o p).x < st.s3.x ∨
            ((projV u0 u1 o p).x = st.s3.x ∧ (projV u0 u1 o p).y < st.s3.y)
        · refine Or.inr ⟨0, Nat.succ_pos _, ?_, ?_⟩
          · rw [hi, hidx, if_pos hc, Nat.add_zero]
          · rw [he, hs, if_pos hc, Nat.add_zero, h0]
        · refine Or.inl ⟨?_, ?_⟩
          · rw [he, hs, if_neg hc]
          · rw [hi, hidx, if_neg hc]
      · exact Or.inr ⟨k + 1, by simpa using Nat.succ_lt_succ hk,
          by rw [hik]; omega, by rw [hsk]; congr 2; omega⟩

/-- The support projections stay synchronised with the support indices:
`support[j]` always equals the projection of `vertex[index[j]]`. -/
def SyncInv (vs : List Vec2) (u0 u1 o : Vec2) (st : ScanState) : Prop :=
  st.s1 = projV u0 u1 o (vAt vs st.idx1) ∧
  st.s2 = projV u0 u1 o (vAt vs st.idx2) ∧
  st.s3 = projV u0 u1 o (vAt vs st.idx3)

lemma scanGo_sync (u0 u1 o : Vec2) (vs : List Vec2) :
    ∀ (l : List Vec2) (i : ℕ) (st : ScanState),
      (∀ k, k < l.length → l.getD k ⟨0, 0⟩ = vAt vs (i + k)) →
      SyncInv vs u0 u1 o st → SyncInv vs u0 u1 o (scanGo u0 u1 o i l st) := by
  intro l
  induction l with
  | nil => intro i st _ h; exact h
  | cons p l ih =>
    intro i st hl hsync
    have h0 : p = vAt vs i := by
      have := hl 0 (Nat.succ_pos _)
      simpa using this
    have hl2 : ∀ k, k < l.length → l.getD k ⟨0, 0⟩ = vAt vs (i + 1 + k) := by
      intro k hk
      have := hl (k + 1) (by simpa using Nat.succ_lt_succ hk)
      simpa [Nat.add_assoc, Nat.add_comm 1 k] using this
    refine ih (i + 1) (scanStep u0 u1 o st i p) hl2 ⟨?_, ?_, ?_⟩
    · rcases scanStep_ch1 u0 u1 o st i p with ⟨hs, hidx⟩
      rw [hs, hidx]
      split_ifs
      · rw [h0]
      · exact hsync.1
    · rcases scanStep_ch2 u0 u1 o st i p with ⟨hs, hidx⟩
      rw [hs, hidx]
      split_ifs
      · rw [h0]
      · exact hsync.2.1
    · rcases scanStep_ch3 u0 u1 o st i p with ⟨hs, hidx⟩
      rw [hs, hidx]
      split_ifs
      · rw [h0]
      · exact hsync.2.2

/-- Projection of `vertex[j]` onto the basis of the starting edge `(i0, i1)`
with origin `vertex[i1]` (lines 183, 189-190). -/
def pjOf (i0 i1 : ℕ) (vs : List Vec2) (j : ℕ) : Vec2 :=
  projV ((vAt vs i1).sub (vAt vs i0)) (((vAt vs i1).sub (vAt vs i0)).perp)
    (vAt vs i1) (vAt vs j)

lemma projV_self (u0 u1 o : Vec2) : projV u0 u1 o o = ⟨0, 0⟩ := by
  simp [projV, Vec2.sub, Vec2.dot]

lemma dot_sub_sub (u a b o : Vec2) :
    u.dot (a.sub o) - u.dot (b.sub o) = u.dot (a.sub b) := by
  simp [Vec2.dot, Vec2.sub]
  ring

/--
C6: `smallestBox` is a pure function of its inputs (it is a Lean `def` of
them) returning a box with `index[0] = i1`; `index[1]` attains the maximal
projection-x, ties broken by larger projection-y (`lexX`); `index[2]` attains
the maximal projection-y, ties broken by smaller projection-x (`lexY`);
`index[3]` attains the minimal projection-x, ties broken by smaller
projection-y; and `area = (support[1].x − support[3].x) × support[2].y /
sqrLenU0` where `support[j]` is the projection of `vertex[index[j]]`.
-/
theorem smallestBox_spec (i0 i1 : ℕ) (vs : List Vec2) (h1 : i1 < vs.length) :
    ∃ b1 b2 b3,
      (smallestBox i0 i1 vs).index = [i1, b1, b2, b3] ∧
      b1 < vs.length ∧ b2 < vs.length ∧ b3 < vs.length ∧
      (∀ j, j < vs.length → lexX (pjOf i0 i1 vs j) (pjOf i0 i1 vs b1)) ∧
      (∀ j, j < vs.length → lexY (pjOf i0 i1 vs j) (pjOf i0 i1 vs b2)) ∧
      (∀ j, j < vs.length → lexX (pjOf i0 i1 vs b3) (pjOf i0 i1 vs j)) ∧
      (smallestBox i0 i1 vs).area =
        ((pjOf i0 i1 vs b1).x - (pjOf i0 i1 vs b3).x) * (pjOf i0 i1 vs b2).y /
          (smallestBox i0 i1 vs).sqrLenU0 := by
  set u0 := (vAt vs i1).sub (vAt vs i0) with hu0
  set o := vAt vs i1 with ho
  set st0 : ScanState := ⟨i1, ⟨0, 0⟩, i1, ⟨0, 0⟩, i1, ⟨0, 0⟩⟩ with hst0
  set st := scanGo u0 u0.perp o 0 vs st0 with hst
  have hbox : smallestBox i0 i1 vs =
      { u0 := u0, u1 := u0.perp, index := [i1, st.idx1, st.idx2, st.idx3],
        sqrLenU0 := u0.dot u0,
        area := (st.s1.x - st.s3.x) * st.s2.y / (u0.dot u0) } := rfl
  have hget : ∀ k, k < vs.length → vs.getD k ⟨0, 0⟩ = vAt vs (0 + k) := by
    intro k _
    simp [vAt]
  have hpj : ∀ j, pjOf i0 i1 vs j = projV u0 u0.perp o (vAt vs j) := fun j => rfl
  have hsync : SyncInv vs u0 u0.perp o st :=
    scanGo_sync u0 u0.perp o vs vs 0 st0 hget
      ⟨by simp [hst0, projV_self], by simp [hst0, projV_self], by simp [hst0, projV_self]⟩
  have h1l := scanGo_ch1 u0 u0.perp o vs vs 0 st0 hget
  have h2l := scanGo_ch2 u0 u0.perp o vs vs 0 st0 hget
  have h3l := scanGo_ch3 u0 u0.perp o vs vs 0 st0 hget
  refine ⟨st.idx1, st.idx2, st.idx3, by rw [hbox], ?_, ?_, ?_, ?_, ?_, ?_, ?_⟩
  · rcases h1l.2.2 with ⟨_, hi⟩ | ⟨k, hk, hik, _⟩
    · rw [← hst] at hi
      rw [hi]
      exact h1
    · rw [← hst] at hik
      rw [hik]
      omega
  · rcases h2l.2.2 with ⟨_, hi⟩ | ⟨k, hk, hik, _⟩
    · rw [← hst] at hi
      rw [hi]
      exact h1
    · rw [← hst] at hik
      rw [hik]
      omega
  · rcases h3l.2.2 with ⟨_, hi⟩ | ⟨k, hk, hik, _⟩
    · rw [← hst] at hi
      rw [hi]
      exact h1
    · rw [← hst] at hik
      rw [hik]
      omega
  · intro j hj
    have := h1l.1 j (by simpa using hj)
    rw [← hst] at this
    rw [hpj, hpj, ← hsync.1]
    simpa using this
  · intro j hj
    have := h2l.1 j (by simpa using hj)
    rw [← hst] at this
    rw [hpj, hpj, ← hsync.2.1]
    simpa using this
  · intro j hj
    have := h3l.1 j (by simpa using hj)
    rw [← hst] at this
    rw [hpj, hpj, ← hsync.2.2]
    simpa using this
  · rw [hbox]
    rw [hpj, hpj, hpj, ← hsync.1, ← hsync.2.1, ← hsync.2.2]

/-- Witness for `smallestBox_spec` at the square input and its first edge. -/
theorem smallestBox_spec_witness :
    (0 : ℕ) < (mkVertices sqHull).length ∧
    (∃ b1 b2 b3,
      (smallestBox 3 0 (mkVertices sqHull)).index = [0, b1, b2, b3] ∧
      b1 < (mkVertices sqHull).length ∧ b2 < (mkVertices sqHull).length ∧
      b3 < (mkVertices sqHull).length ∧
      (∀ j, j < (mkVertices sqHull).length →
        lexX (pjOf 3 0 (mkVertices sqHull) j) (pjOf 3 0 (mkVertices sqHull) b1)) ∧
      (∀ j, j < (mkVertices sqHull).length →
        lexY (pjOf 3 0 (mkVertices sqHull) j) (pjOf 3 0 (mkVertices sqHull) b2)) ∧
      (∀ j, j < (mkVertices sqHull).length →
        lexX (pjOf 3 0 (mkVertices sqHull) b3) (pjOf 3 0 (mkVertices sqHull) j)) ∧
      (smallestBox 3 0 (mkVertices sqHull)).area =
        ((pjOf 3 0 (mkVertices sqHull) b1).x - (pjOf 3 0 (mkVertices sqHull) b3).x) *
          (pjOf 3 0 (mkVertices sqHull) b2).y /
          (smallestBox 3 0 (mkVertices sqHull)).sqrLenU0) := by
  have h04 : (0 : ℕ) < (mkVertices sqHull).length := by decide
  exact ⟨h04, smallestBox_spec 3 0 (mkVertices sqHull) h04⟩

/-! ## C4 machinery: the invariant after each operation -/

lemma perp_negV (a : Vec2) : (a.negV).perp = (a.perp).negV := by
  simp [Vec2.perp, Vec2.negV]

lemma negV_negV (a : Vec2) : (a.negV).negV = a := by
  simp [Vec2.negV]

/-- After `smallestBox`, `u1` is the +90° rotation of `u0` and `area` agrees
with the area recomputed from the current `index` and basis. -/
lemma smallestBox_invariant (i0 i1 : ℕ) (vs : List Vec2) :
    (smallestBox i0 i1 vs).u1 = (smallestBox i0 i1 vs).u0.perp ∧
    (smallestBox i0 i1 vs).area = recomputeArea vs (smallestBox i0 i1 vs) := by
  set u0 := (vAt vs i1).sub (vAt vs i0) with hu0
  set o := vAt vs i1 with ho
  set st0 : ScanState := ⟨i1, ⟨0, 0⟩, i1, ⟨0, 0⟩, i1, ⟨0, 0⟩⟩ with hst0
  set st := scanGo u0 u0.perp o 0 vs st0 with hst
  have hbox : smallestBox i0 i1 vs =
      { u0 := u0, u1 := u0.perp, index := [i1, st.idx1, st.idx2, st.idx3],
        sqrLenU0 := u0.dot u0,
        area := (st.s1.x - st.s3.x) * st.s2.y / (u0.dot u0) } := rfl
  have hget : ∀ k, k < vs.length → vs.getD k ⟨0, 0⟩ = vAt vs (0 + k) := by
    intro k _
    simp [vAt]
  have hsync : SyncInv vs u0 u0.perp o st :=
    scanGo_sync u0 u0.perp o vs vs 0 st0 hget
      ⟨by simp [hst0, projV_self], by simp [hst0, projV_self], by simp [hst0, projV_self]⟩
  refine ⟨by rw [hbox], ?_⟩
  rw [hbox, recomputeArea]
  simp only [idxAt, List.getD, List.get?]
  rw [hsync.1, hsync.2.1, hsync.2.2]
  simp only [projV]
  rw [dot_sub_sub]
  rfl

/-- After a successful `updateSupport`, `u1` is the +90° rotation of `u0` and
`area` agrees with the area recomputed from the current `index` and basis. -/
lemma updateSupport_invariant (buf : List (Option AngleInfo)) (anum : ℕ) (srt : List ℕ)
    (vs : List Vec2) (visited : List Bool) (b : Box) (ms : ModuleState)
    (h : (updateSupport buf anum srt vs visited b ms).1 = true) :
    (updateSupport buf anum srt vs visited b ms).2.1.u1 =
      (updateSupport buf anum srt vs visited b ms).2.1.u0.perp ∧
    (updateSupport buf anum srt vs visited b ms).2.1.area =
      recomputeArea vs (updateSupport buf anum srt vs visited b ms).2.1 := by
  unfold updateSupport at h ⊢
  dsimp only at h ⊢
  by_cases hv : visited.getD (idxAt (advanceAll buf anum srt vs b).1
      (getAngle buf (srt.getD 0 0)).indexOfBox) false = true
  · rw [if_pos hv] at h
    exact absurd h (by simp)
  · rw [if_neg hv]
    exact ⟨rfl, rfl⟩

/-- One `computeAngles` step either leaves the axis vectors alone or negates
exactly one of them in place, so it keeps `u1 ∈ {perp u0, −perp u0}`. -/
lemma caStep_sign (vs : List Vec2) (st : Box × ModuleState × List AngleInfo) (kk : ℕ × ℕ)
    (h : st.1.u1 = st.1.u0.perp ∨ st.1.u1 = (st.1.u0.perp).negV) :
    (caStep vs st kk).1.u1 = (caStep vs st kk).1.u0.perp ∨
    (caStep vs st kk).1.u1 = ((caStep vs st kk).1.u0.perp).negV := by
  unfold caStep
  dsimp only
  split_ifs <;> rcases h with h | h <;> simp [h, perp_negV, negV_negV]

/-- After `computeAngles`, `u1` is `±(perp u0)` whenever it was `perp u0`
before (each of the two in-place `negate()`s flips one sign). -/
lemma computeAngles_sign (vs : List Vec2) (b : Box) (ms : ModuleState)
    (hu : b.u1 = b.u0.perp) :
    (computeAngles vs b ms).1.u1 = (computeAngles vs b ms).1.u0.perp ∨
    (computeAngles vs b ms).1.u1 = ((computeAngles vs b ms).1.u0.perp).negV := by
  unfold computeAngles
  simp only [List.foldl]
  exact caStep_sign vs _ _ (caStep_sign vs _ _ (caStep_sign vs _ _ (caStep_sign vs _ _
    (Or.inl hu))))

/--
C4 amended: the box invariant — `u1 = (−u0.y, u0.x)` and `area` equal to the
area recomputed from the current `index` and `(u0, u1)` basis — holds after
`smallestBox` and after every successful `updateSupport`; after
`computeAngles`, because the two far sides negate `box.u[0]` and `box.u[1]`
in place, only the weaker `u1 = ±(perp u0)` survives (both signs flip, and
hence the exact invariant is restored, only when both of the sides `k0 = 2`
and `k0 = 3` are non-degenerate or both degenerate).
-/
theorem box_invariant_amended :
    (∀ (i0 i1 : ℕ) (vs : List Vec2),
      (smallestBox i0 i1 vs).u1 = (smallestBox i0 i1 vs).u0.perp ∧
      (smallestBox i0 i1 vs).area = recomputeArea vs (smallestBox i0 i1 vs)) ∧
    (∀ (buf : List (Option AngleInfo)) (anum : ℕ) (srt : List ℕ) (vs : List Vec2)
      (visited : List Bool) (b : Box) (ms : ModuleState),
      (updateSupport buf anum srt vs visited b ms).1 = true →
      (updateSupport buf anum srt vs visited b ms).2.1.u1 =
        (updateSupport buf anum srt vs visited b ms).2.1.u0.perp ∧
      (updateSupport buf anum srt vs visited b ms).2.1.area =
        recomputeArea vs (updateSupport buf anum srt vs visited b ms).2.1) ∧
    (∀ (vs : List Vec2) (b : Box) (ms : ModuleState), b.u1 = b.u0.perp →
      (computeAngles vs b ms).1.u1 = (computeAngles vs b ms).1.u0.perp ∨
      (computeAngles vs b ms).1.u1 = ((computeAngles vs b ms).1.u0.perp).negV) :=
  ⟨smallestBox_invariant, updateSupport_invariant, computeAngles_sign⟩

/-- Witness for `box_invariant_amended`: the square input exercises the
`smallestBox` clause, a 1-candidate buffer on the square's vertex set
exercises the successful-`updateSupport` clause, and the initial square box
exercises the `computeAngles` clause. -/
theorem box_invariant_amended_witness :
    ((smallestBox 3 0 (mkVertices sqHull)).u1 = (smallestBox 3 0 (mkVertices sqHull)).u0.perp ∧
      (smallestBox 3 0 (mkVertices sqHull)).area =
        recomputeArea (mkVertices sqHull) (smallestBox 3 0 (mkVertices sqHull))) ∧
    ((updateSupport [some ⟨0, 0⟩, none, none, none] 1 [0] (mkVertices sqHull)
        [false, false, false, false] (smallestBox 3 0 (mkVertices sqHull)) msInit).1 = true ∧
      (updateSupport [some ⟨0, 0⟩, none, none, none] 1 [0] (mkVertices sqHull)
        [false, false, false, false] (smallestBox 3 0 (mkVertices sqHull)) msInit).2.1.u1 =
        (updateSupport [some ⟨0, 0⟩, none, none, none] 1 [0] (mkVertices sqHull)
          [false, false, false, false] (smallestBox 3 0 (mkVertices sqHull)) msInit).2.1.u0.perp) ∧
    ((smallestBox 3 0 (mkVertices sqHull)).u1 = (smallestBox 3 0 (mkVertices sqHull)).u0.perp ∧
      ((computeAngles (mkVertices sqHull) (smallestBox 3 0 (mkVertices sqHull)) msInit).1.u1 =
          (computeAngles (mkVertices sqHull) (smallestBox 3 0 (mkVertices sqHull)) msInit).1.u0.perp ∨
        (computeAngles (mkVertices sqHull) (smallestBox 3 0 (mkVertices sqHull)) msInit).1.u1 =
          ((computeAngles (mkVertices sqHull)
            (smallestBox 3 0 (mkVertices sqHull)) msInit).1.u0.perp).negV)) := by
  have hu : (smallestBox 3 0 (mkVertices sqHull)).u1 =
      (smallestBox 3 0 (mkVertices sqHull)).u0.perp := by with_unfolding_all decide
  have ht : (updateSupport [some ⟨0, 0⟩, none, none, none] 1 [0] (mkVertices sqHull)
      [false, false, false, false] (smallestBox 3 0 (mkVertices sqHull)) msInit).1 = true := by
    with_unfolding_all decide
  exact ⟨box_invariant_amended.1 3 0 (mkVertices sqHull),
    ⟨ht, (box_invariant_amended.2.1 _ _ _ _ _ _ _ ht).1⟩,
    ⟨hu, box_invariant_amended.2.2 (mkVertices sqHull) (smallestBox 3 0 (mkVertices sqHull))
      msInit hu⟩⟩

/-! ## C8: the termination path of `updateSupport` -/

/-- The step-1 advance loop only writes `box.index`: the axis vectors,
`sqrLenU0` and `area` pass through it unchanged. -/
lemma advance_frame (buf : List (Option AngleInfo)) (srt : List ℕ) (vs : List Vec2)
    (mA : AngleInfo) :
    ∀ (l : List ℕ) (bp : Box × ℕ),
      (l.foldl (advanceStep buf srt vs mA) bp).1.u0 = bp.1.u0 ∧
      (l.foldl (advanceStep buf srt vs mA) bp).1.u1 = bp.1.u1 ∧
      (l.foldl (advanceStep buf srt vs mA) bp).1.sqrLenU0 = bp.1.sqrLenU0 ∧
      (l.foldl (advanceStep buf srt vs mA) bp).1.area = bp.1.area := by
  intro l
  induction l with
  | nil => exact fun bp => ⟨rfl, rfl, rfl, rfl⟩
  | cons k l ih =>
    intro bp
    have hstep : (advanceStep buf srt vs mA bp k).1.u0 = bp.1.u0 ∧
        (advanceStep buf srt vs mA bp k).1.u1 = bp.1.u1 ∧
        (advanceStep buf srt vs mA bp k).1.sqrLenU0 = bp.1.sqrLenU0 ∧
        (advanceStep buf srt vs mA bp k).1.area = bp.1.area := by
      unfold advanceStep
      dsimp only
      split_ifs <;> exact ⟨rfl, rfl, rfl, rfl⟩
    have := ih (advanceStep buf srt vs mA bp k)
    exact ⟨this.1.trans hstep.1, this.2.1.trans hstep.2.1,
      this.2.2.1.trans hstep.2.2.1, this.2.2.2.trans hstep.2.2.2⟩

/--
C8: `updateSupport` returns `false` exactly when, after the step-1 advances,
the new bottom index — the advanced index at the side carrying the minimal
angle `angleInfo[sort[0]]` — is already marked visited; and on that path it
returns the advanced box with its `u` vectors, `sqrLenU0` and `area`
untouched, the visited array unwritten, the `index` array advanced but not
cyclically rotated, and the module-scope `u1` vector unwritten.
-/
theorem updateSupport_false_iff (buf : List (Option AngleInfo)) (anum : ℕ) (srt : List ℕ)
    (vs : List Vec2) (visited : List Bool) (b : Box) (ms : ModuleState) :
    ((updateSupport buf anum srt vs visited b ms).1 = false ↔
      visited.getD (idxAt (advanceAll buf anum srt vs b).1
        (getAngle buf (srt.getD 0 0)).indexOfBox) false = true) ∧
    (visited.getD (idxAt (advanceAll buf anum srt vs b).1
        (getAngle buf (srt.getD 0 0)).indexOfBox) false = true →
      updateSupport buf anum srt vs visited b ms =
        (false, (advanceAll buf anum srt vs b).1, visited, ms) ∧
      (advanceAll buf anum srt vs b).1.u0 = b.u0 ∧
      (advanceAll buf anum srt vs b).1.u1 = b.u1 ∧
      (advanceAll buf anum srt vs b).1.sqrLenU0 = b.sqrLenU0 ∧
      (advanceAll buf anum srt vs b).1.area = b.area) := by
  have hframe := advance_frame buf srt vs (getAngle buf (srt.getD 0 0)) (List.range anum)
    (b, 0)
  unfold updateSupport
  dsimp only
  by_cases hv : visited.getD (idxAt (advanceAll buf anum srt vs b).1
      (getAngle buf (srt.getD 0 0)).indexOfBox) false = true
  · rw [if_pos hv]
    exact ⟨⟨fun _ => hv, fun _ => rfl⟩, fun _ => ⟨rfl, hframe⟩⟩
  · rw [if_neg hv]
    exact ⟨⟨fun h => absurd h (by simp), fun h => absurd h hv⟩, fun h => absurd h hv⟩

/-- Witness for `updateSupport_false_iff`: a concrete instance where the
advanced bottom index is already visited, so the call signals termination. -/
theorem updateSupport_false_iff_witness :
    (updateSupport [some ⟨0, 0⟩, none, none, none] 1 [0] (mkVertices twoHull) [true, true]
      (smallestBox 1 0 (mkVertices twoHull)) msInit).1 = false := by
  have h := updateSupport_false_iff [some ⟨0, 0⟩, none, none, none] 1 [0]
    (mkVertices twoHull) [true, true] (smallestBox 1 0 (mkVertices twoHull)) msInit
  exact h.1.mpr (by with_unfolding_all decide)

/-! ## C7: the Angle Selector's ordering -/

/-- Reading a fresh buffer holding exactly the candidate list. -/
lemma writeBuf_fresh_getD (cands : List AngleInfo) (i : ℕ) :
    (writeBuf (List.replicate 4 none) cands).getD i none =
      if i < cands.length then some (cands.getD i ⟨0, 0⟩) else none := by
  unfold writeBuf
  rw [List.getD_eq_getElem?_getD, List.getElem?_append]
  simp only [List.length_map]
  by_cases hi : i < cands.length
  · rw [if_pos hi, if_pos hi, List.getElem?_map,
      List.getElem?_eq_getElem (l := cands) (by simpa using hi)]
    rw [List.getD_eq_getElem _ _ (by simpa using hi)]
    rfl
  · rw [if_neg hi, if_neg hi, List.drop_replicate, List.getElem?_replicate]
    split_ifs <;> rfl

lemma writeBuf_fresh_length (cands : List AngleInfo) (h4 : cands.length ≤ 4) :
    (writeBuf (List.replicate 4 none) cands).length = 4 := by
  unfold writeBuf
  rw [List.length_append, List.length_map, List.length_drop, List.length_replicate]
  omega

lemma filter_range_lt (m : ℕ) :
    ∀ n, m ≤ n → (List.range n).filter (fun i => decide (i < m)) = List.range m := by
  intro n
  induction n with
  | zero =>
    intro h
    have : m = 0 := Nat.le_zero.mp h
    simp [this]
  | succ n ih =>
    intro h
    rw [List.range_succ, List.filter_append]
    by_cases hm : m ≤ n
    · rw [ih hm]
      have : ¬ (n < m) := by omega
      simp [this]
    · have hme : m = n + 1 := by omega
      subst hme
      rw [List.filter_eq_self.mpr (fun a ha => by
        simp only [decide_eq_true_eq]
        exact Nat.lt_succ_of_lt (List.mem_range.mp ha))]
      have : n < n + 1 := Nat.lt_succ_self n
      simp [this, List.range_succ]

/-- The comparator's "may precede" relation, characterised: ascending
`sinThetaSqr`, and when fewer than 4 candidates were produced, equal
`sinThetaSqr` orders the larger `indexOfBox` first. -/
lemma leCmp_iff (anum : ℕ) (a b : AngleInfo) :
    leCmp anum a b = true ↔
      (a.sinThetaSqr < b.sinThetaSqr ∨
        (a.sinThetaSqr = b.sinThetaSqr ∧ (anum < 4 → b.indexOfBox ≤ a.indexOfBox))) := by
  unfold leCmp
  split_ifs with h
  · simp only [decide_eq_true_eq]
    constructor
    · intro hb
      exact Or.inr ⟨h.2, fun _ => hb⟩
    · rintro (hlt | ⟨_, hi⟩)
      · exact absurd h.2 (ne_of_lt hlt)
      · exact hi h.1
  · push_neg at h
    simp only [decide_eq_true_eq]
    constructor
    · intro hle
      rcases lt_or_eq_of_le hle with hlt | heq
      · exact Or.inl hlt
      · exact Or.inr ⟨heq, fun h4 => absurd heq (h h4)⟩
    · rintro (hlt | ⟨heq, _⟩)
      · exact le_of_lt hlt
      · exact le_of_eq heq

lemma leCmp_total (anum : ℕ) (a b : AngleInfo) :
    leCmp anum a b = true ∨ leCmp anum b a = true := by
  rw [leCmp_iff, leCmp_iff]
  rcases lt_trichotomy a.sinThetaSqr b.sinThetaSqr with h | h | h
  · exact Or.inl (Or.inl h)
  · rcases le_total b.indexOfBox a.indexOfBox with hi | hi
    · exact Or.inl (Or.inr ⟨h, fun _ => hi⟩)
    · exact Or.inr (Or.inr ⟨h.symm, fun _ => hi⟩)
  · exact Or.inr (Or.inl h)

lemma leCmp_trans (anum : ℕ) (a b c : AngleInfo)
    (h1 : leCmp anum a b = true) (h2 : leCmp anum b c = true) :
    leCmp anum a c = true := by
  rw [leCmp_iff] at h1 h2 ⊢
  rcases h1 with h1 | ⟨h1, h1i⟩ <;> rcases h2 with h2 | ⟨h2, h2i⟩
  · exact Or.inl (h1.trans h2)
  · exact Or.inl (h2 ▸ h1)
  · exact Or.inl (h1 ▸ h2)
  · exact Or.inr ⟨h1.trans h2, fun h4 => (h2i h4).trans (h1i h4)⟩

/-- Reading the fresh buffer at an in-range slot yields the candidate. -/
lemma getAngle_fresh (cands : List AngleInfo) (i : ℕ) (hi : i < cands.length) :
    getAngle (writeBuf (List.replicate 4 none) cands) i = cands.getD i ⟨0, 0⟩ := by
  unfold getAngle
  rw [writeBuf_fresh_getD, if_pos hi]
  rfl

lemma map_getAngle_range (cands : List AngleInfo) :
    (List.range cands.length).map (getAngle (writeBuf (List.replicate 4 none) cands)) =
      cands := by
  apply List.ext_getElem
  · simp
  · intro i h1 h2
    rw [List.getElem_map, List.getElem_range]
    rw [getAngle_fresh cands i (by simpa using h2)]
    exact List.getD_eq_getElem _ _ (by simpa using h2)

/--
C7: on every candidate list the Angle Computer can produce (between 1 and 4
candidates), `sortAngles` returns a permutation of the candidates that is
ascending by `sinThetaSqr`, and when the candidate count is less than 4,
candidates with equal `sinThetaSqr` are ordered with the larger
`boxSideIndex` (`indexOfBox`) first.
-/
theorem sortAngles_ordering (cands : List AngleInfo) (h0 : 0 < cands.length)
    (h4 : cands.length ≤ 4) :
    ((sortAngles (writeBuf (List.replicate 4 none) cands) cands.length).map
        (getAngle (writeBuf (List.replicate 4 none) cands))).Perm cands ∧
    ((sortAngles (writeBuf (List.replicate 4 none) cands) cands.length).map
        (getAngle (writeBuf (List.replicate 4 none) cands))).Pairwise
      (fun a b => a.sinThetaSqr < b.sinThetaSqr ∨
        (a.sinThetaSqr = b.sinThetaSqr ∧
          (cands.length < 4 → b.indexOfBox ≤ a.indexOfBox))) := by
  have hs : sortAngles (writeBuf (List.replicate 4 none) cands) cands.length =
      List.insertionSort
        (fun i j => leCmp cands.length
          (getAngle (writeBuf (List.replicate 4 none) cands) i)
          (getAngle (writeBuf (List.replicate 4 none) cands) j) = true)
        (List.range cands.length) := by
    unfold sortAngles
    rw [if_neg (by omega)]
    have hdef : (List.range (writeBuf (List.replicate 4 none) cands).length).filter
        (fun i => ((writeBuf (List.replicate 4 none) cands).getD i none).isSome) =
        List.range cands.length := by
      rw [writeBuf_fresh_length cands h4]
      rw [List.filter_congr (fun i hi => ?_)]
      · exact filter_range_lt cands.length 4 h4
      · rw [writeBuf_fresh_getD]
        by_cases hic : i < cands.length
        · simp [hic]
        · simp [hic]
    rw [hdef]
  haveI : IsTotal ℕ (fun i j => leCmp cands.length
      (getAngle (writeBuf (List.replicate 4 none) cands) i)
      (getAngle (writeBuf (List.replicate 4 none) cands) j) = true) :=
    ⟨fun i j => leCmp_total _ _ _⟩
  haveI : IsTrans ℕ (fun i j => leCmp cands.length
      (getAngle (writeBuf (List.replicate 4 none) cands) i)
      (getAngle (writeBuf (List.replicate 4 none) cands) j) = true) :=
    ⟨fun i j k => leCmp_trans _ _ _ _⟩
  have hperm := List.perm_insertionSort
    (fun i j => leCmp cands.length
      (getAngle (writeBuf (List.replicate 4 none) cands) i)
      (getAngle (writeBuf (List.replicate 4 none) cands) j) = true)
    (List.range cands.length)
  have hsorted := List.sorted_insertionSort
    (fun i j => leCmp cands.length
      (getAngle (writeBuf (List.replicate 4 none) cands) i)
      (getAngle (writeBuf (List.replicate 4 none) cands) j) = true)
    (List.range cands.length)
  constructor
  · rw [hs]
    have h2 := hperm.map (getAngle (writeBuf (List.replicate 4 none) cands))
    rw [map_getAngle_range] at h2
    exact h2
  · rw [hs]
    rw [List.pairwise_map]
    exact hsorted.imp (fun {i j} hij => (leCmp_iff cands.length _ _).mp hij)

/-- Witness for `sortAngles_ordering` at a 2-candidate tie (the parallel-edge
case the tie-break rule exists for). -/
theorem sortAngles_ordering_witness :
    (0 : ℕ) < ([⟨1, 3⟩, ⟨1, 1⟩] : List AngleInfo).length ∧
    (((sortAngles (writeBuf (List.replicate 4 none) [⟨1, 3⟩, ⟨1, 1⟩])
        ([⟨1, 3⟩, ⟨1, 1⟩] : List AngleInfo).length).map
      (getAngle (writeBuf (List.replicate 4 none) [⟨1, 3⟩, ⟨1, 1⟩]))).Perm
        [⟨1, 3⟩, ⟨1, 1⟩] ∧
    ((sortAngles (writeBuf (List.replicate 4 none) [⟨1, 3⟩, ⟨1, 1⟩])
        ([⟨1, 3⟩, ⟨1, 1⟩] : List AngleInfo).length).map
      (getAngle (writeBuf (List.replicate 4 none) [⟨1, 3⟩, ⟨1, 1⟩]))).Pairwise
      (fun a b => a.sinThetaSqr < b.sinThetaSqr ∨
        (a.sinThetaSqr = b.sinThetaSqr ∧
          (([⟨1, 3⟩, ⟨1, 1⟩] : List AngleInfo).length < 4 →
            b.indexOfBox ≤ a.indexOfBox)))) := by
  refine ⟨by decide, ?_⟩
  exact sortAngles_ordering [⟨1, 3⟩, ⟨1, 1⟩] (by decide) (by decide)

/-! ## C9: the best box axis is always a hull edge vector -/

lemma getD_lt_of_forall (l : List ℕ) (k n : ℕ) (hn : 1 ≤ n) (h : ∀ x ∈ l, x < n) :
    l.getD k 0 < n := by
  by_cases hk : k < l.length
  · rw [List.getD_eq_getElem _ _ hk]
    exact h _ (List.getElem_mem hk)
  · rw [List.getD_eq_default _ _ (le_of_not_lt hk)]
    omega

lemma wrapSucc_lt (n i : ℕ) (hi : i < n) : wrapSucc n i < n := by
  unfold wrapSucc
  split_ifs with h <;> omega

/-- `computeAngles` never touches the index array (it only negates axis
vectors and emits candidates). -/
lemma caStep_index (vs : List Vec2) (st : Box × ModuleState × List AngleInfo) (kk : ℕ × ℕ) :
    (caStep vs st kk).1.index = st.1.index := by
  unfold caStep
  dsimp only
  split_ifs <;> rfl

lemma computeAngles_index (vs : List Vec2) (b : Box) (ms : ModuleState) :
    (computeAngles vs b ms).1.index = b.index := by
  unfold computeAngles
  simp only [List.foldl]
  rw [caStep_index, caStep_index, caStep_index, caStep_index]

/-- The advance loop keeps the index array 4 entries long with every entry a
valid vertex index. -/
lemma advance_idx (buf : List (Option AngleInfo)) (srt : List ℕ) (vs : List Vec2)
    (mA : AngleInfo) (hn : 1 ≤ vs.length) :
    ∀ (l : List ℕ) (bp : Box × ℕ), bp.1.index.length = 4 →
      (∀ x ∈ bp.1.index, x < vs.length) →
      ((l.foldl (advanceStep buf srt vs mA) bp).1.index.length = 4 ∧
       ∀ x ∈ (l.foldl (advanceStep buf srt vs mA) bp).1.index, x < vs.length) := by
  intro l
  induction l with
  | nil => exact fun bp h1 h2 => ⟨h1, h2⟩
  | cons k l ih =>
    intro bp h1 h2
    have hstep : (advanceStep buf srt vs mA bp k).1.index.length = 4 ∧
        ∀ x ∈ (advanceStep buf srt vs mA bp k).1.index, x < vs.length := by
      unfold advanceStep
      dsimp only
      split_ifs
      · constructor
        · rw [List.length_set]
          exact h1
        · intro x hx
          rcases List.mem_or_eq_of_mem_set hx with h | h
          · exact h2 x h
          · rw [h]
            exact wrapSucc_lt _ _ (getD_lt_of_forall _ _ _ hn h2)
      · exact ⟨h1, h2⟩
    exact ih (advanceStep buf srt vs mA bp k) hstep.1 hstep.2

/-- Both outcomes of `updateSupport` keep the index array well formed, and on
the successful path the recomputed `u0` is exactly the hull edge ending at
the new bottom support `index[0]`. -/
lemma updateSupport_idx (buf : List (Option AngleInfo)) (anum : ℕ) (srt : List ℕ)
    (vs : List Vec2) (visited : List Bool) (b : Box) (ms : ModuleState)
    (hn : 1 ≤ vs.length) (hlen : b.index.length = 4) (hmem : ∀ x ∈ b.index, x < vs.length) :
    ((updateSupport buf anum srt vs visited b ms).2.1.index.length = 4 ∧
     ∀ x ∈ (updateSupport buf anum srt vs visited b ms).2.1.index, x < vs.length) ∧
    ((updateSupport buf anum srt vs visited b ms).1 = true →
      (updateSupport buf anum srt vs visited b ms).2.1.u0 =
        edgeVec vs (idxAt (updateSupport buf anum srt vs visited b ms).2.1 0)) := by
  have hadv := advance_idx buf srt vs (getAngle buf (srt.getD 0 0)) hn (List.range anum)
    (b, 0) hlen hmem
  unfold updateSupport
  dsimp only
  by_cases hv : visited.getD (idxAt (advanceAll buf anum srt vs b).1
      (getAngle buf (srt.getD 0 0)).indexOfBox) false = true
  · rw [if_pos hv]
    exact ⟨hadv, fun h => absurd h (by simp)⟩
  · rw [if_neg hv]
    refine ⟨⟨by simp, ?_⟩, fun _ => rfl⟩
    intro x hx
    simp only [List.mem_map, List.mem_range] at hx
    rcases hx with ⟨k, _, hk⟩
    rw [← hk]
    exact getD_lt_of_forall _ _ _ hn hadv.2

/-- The invariant carried around the orchestrator loop: the best box has a
well-formed index array and its `u0` is a hull edge vector; the working box
has a well-formed index array. -/
def GoodSt (vs : List Vec2) (st : LoopSt) : Prop :=
  (st.minBox.index.length = 4 ∧ (∀ x ∈ st.minBox.index, x < vs.length) ∧
    st.minBox.u0 = edgeVec vs (idxAt st.minBox 0)) ∧
  (st.box.index.length = 4 ∧ ∀ x ∈ st.box.index, x < vs.length)

lemma caliperLoop_good (vs : List Vec2) (hn : 1 ≤ vs.length) :
    ∀ (fuel : ℕ) (st : LoopSt), GoodSt vs st → GoodSt vs (caliperLoop vs fuel st) := by
  intro fuel
  induction fuel with
  | zero => exact fun st h => h
  | succ n ih =>
    intro st h
    rw [caliperLoop]
    dsimp only
    by_cases h0 : (computeAngles vs st.box st.ms).2.2.length = 0
    · rw [if_pos h0]
      exact ⟨h.1, by rw [computeAngles_index]; exact h.2.1,
        by rw [computeAngles_index]; exact h.2.2⟩
    · rw [if_neg h0]
      have hbidx : (computeAngles vs st.box st.ms).1.index.length = 4 ∧
          ∀ x ∈ (computeAngles vs st.box st.ms).1.index, x < vs.length := by
        rw [computeAngles_index]
        exact h.2
      have hup := updateSupport_idx (writeBuf st.buf (computeAngles vs st.box st.ms).2.2)
        (computeAngles vs st.box st.ms).2.2.length
        (sortAngles (writeBuf st.buf (computeAngles vs st.box st.ms).2.2)
          (computeAngles vs st.box st.ms).2.2.length)
        vs st.visited (computeAngles vs st.box st.ms).1 (computeAngles vs st.box st.ms).2.1
        hn hbidx.1 hbidx.2
      by_cases hu : (updateSupport (writeBuf st.buf (computeAngles vs st.box st.ms).2.2)
          (computeAngles vs st.box st.ms).2.2.length
          (sortAngles (writeBuf st.buf (computeAngles vs st.box st.ms).2.2)
            (computeAngles vs st.box st.ms).2.2.length)
          vs st.visited (computeAngles vs st.box st.ms).1
          (computeAngles vs st.box st.ms).2.1).1 = true
      · rw [if_pos hu]
        apply ih
        refine ⟨?_, hup.1⟩
        dsimp only
        split_ifs
        · exact ⟨hup.1.1, hup.1.2, hup.2 hu⟩
        · exact h.1
      · rw [if_neg hu]
        exact ⟨h.1, hup.1⟩

/--
C9: for every input with at least 3 vertices, the best box kept by
`runCaliper` — the box from which the returned `angle`, axis directions and
`center` are derived — has `u0` equal to the hull edge vector
`vertex[i] − vertex[i − 1 mod n]` for some vertex index `i`; that is, one
side of the returned rectangle is parallel to a polygon edge.
-/
theorem runCaliper_u0_hull_edge (hull : List (ℚ × ℚ)) (ms : ModuleState)
    (h3 : 3 ≤ hull.length) :
    ∃ i, i < hull.length ∧
      (runCaliper hull ms).1.u0 = edgeVec (mkVertices hull) i := by
  have hlen : (mkVertices hull).length = hull.length := List.length_map hull _
  have hn : 1 ≤ (mkVertices hull).length := by omega
  have hzero : (0 : ℕ) < (mkVertices hull).length := by omega
  have hsb := smallestBox_spec ((mkVertices hull).length - 1) 0 (mkVertices hull) hzero
  rcases hsb with ⟨b1, b2, b3, hidx, hb1, hb2, hb3, _⟩
  have hgood0 : GoodSt (mkVertices hull)
      { minBox := smallestBox ((mkVertices hull).length - 1) 0 (mkVertices hull),
        box := smallestBox ((mkVertices hull).length - 1) 0 (mkVertices hull),
        visited := (List.replicate (mkVertices hull).length false).set
          (idxAt (smallestBox ((mkVertices hull).length - 1) 0 (mkVertices hull)) 0) true,
        buf := List.replicate 4 none, ms := ms } := by
    have hidxlen : (smallestBox ((mkVertices hull).length - 1) 0
        (mkVertices hull)).index.length = 4 := by
      rw [hidx]
      rfl
    have hmem : ∀ x ∈ (smallestBox ((mkVertices hull).length - 1) 0
        (mkVertices hull)).index, x < (mkVertices hull).length := by
      rw [hidx]
      intro x hx
      simp only [List.mem_cons, List.mem_singleton, List.not_mem_nil, or_false] at hx
      rcases hx with h | h | h | h <;> subst h <;> omega
    refine ⟨⟨hidxlen, hmem, ?_⟩, hidxlen, hmem⟩
    have h0 : idxAt (smallestBox ((mkVertices hull).length - 1) 0 (mkVertices hull)) 0 = 0 := by
      unfold idxAt
      rw [hidx]
      rfl
    rw [h0]
    unfold edgeVec smallestBox
    rw [if_pos rfl]
  have hfinal := caliperLoop_good (mkVertices hull) hn (mkVertices hull).length _ hgood0
  refine ⟨idxAt (caliperLoop (mkVertices hull) (mkVertices hull).length
      { minBox := smallestBox ((mkVertices hull).length - 1) 0 (mkVertices hull),
        box := smallestBox ((mkVertices hull).length - 1) 0 (mkVertices hull),
        visited := (List.replicate (mkVertices hull).length false).set
          (idxAt (smallestBox ((mkVertices hull).length - 1) 0 (mkVertices hull)) 0) true,
        buf := List.replicate 4 none, ms := ms }).minBox 0, ?_, ?_⟩
  · rw [← hlen]
    exact getD_lt_of_forall _ _ _ hn hfinal.1.2.1
  · exact hfinal.1.2.2

/-- Witness for `runCaliper_u0_hull_edge` at the square input. -/
theorem runCaliper_u0_hull_edge_witness :
    3 ≤ sqHull.length ∧
    ∃ i, i < sqHull.length ∧
      (runCaliper sqHull msInit).1.u0 = edgeVec (mkVertices sqHull) i := by
  have h3 : 3 ≤ sqHull.length := by decide
  exact ⟨h3, runCaliper_u0_hull_edge sqHull msInit h3⟩

/--
C5 counter-evidence: the scratch vectors `perpE` (line 70) and `u1`
(line 112) of the source are declared at module scope, outside
`rotatingCaliper`; the embedding therefore has to thread a `ModuleState`
into and out of every invocation.  This theorem shows an invocation writes
that state: running the square input from the load-time module state leaves
`perpE` changed, so the buffer's contents persist across invocations and a
concurrent invocation would share (and clobber) the very same vectors.
-/
theorem rotatingCaliper_writes_module_state :
    (rotatingCaliper sqHull msInit).2.1 ≠ msInit := by with_unfolding_all decide

/-! ## C10: the caller's hull array is never mutated -/

/--
C10: `rotatingCaliper` never mutates its argument.  The only use of `hull`
in the source is the element-wise read `hull.map((point) => new
Vector2(point[0], point[1]))` at line 22, which copies both coordinates of
every point into freshly allocated `Vector2`s; every subsequent mutation
(`negate`, `set`, `subVectors`, index writes) targets objects allocated
inside the invocation.  The embedding threads the caller-visible hull
through the call (applying to it every write the source performs on it,
namely none); this theorem states the hull the caller sees after the call
is the hull it passed.
-/
theorem rotatingCaliper_preserves_hull (hull : List (ℚ × ℚ)) (ms : ModuleState) :
    (rotatingCaliper hull ms).2.2 = hull := rfl

/-! ## C4: the box invariant at operation boundaries -/

/--
C4 counterexample: after `computeAngles`, `u1` need not be the +90° rotation
of `u0`.  On `quadHull` the initial box has `index = [0, 1, 2, 2]`: side
`(3, 0)` is non-degenerate, so the step `k0 = 3` executes
`box.u[1].negate()`, but side `(2, 3)` is degenerate, so `box.u[0]` is never
negated, leaving `u1 = -(u0.perp)` — and the stored `area` likewise no
longer matches the area recomputed from the current `index` and basis.
-/
theorem computeAngles_breaks_invariant :
    ((computeAngles (mkVertices quadHull) (smallestBox 3 0 (mkVertices quadHull)) msInit).1.u1 ≠
      ((computeAngles (mkVertices quadHull) (smallestBox 3 0 (mkVertices quadHull)) msInit).1.u0).perp) ∧
    ((computeAngles (mkVertices quadHull) (smallestBox 3 0 (mkVertices quadHull)) msInit).1.area ≠
      recomputeArea (mkVertices quadHull)
        (computeAngles (mkVertices quadHull) (smallestBox 3 0 (mkVertices quadHull)) msInit).1) := by
  with_unfolding_all decide

/-! ## C1: no input-size validation — degenerate inputs return silently -/

/--
C1 counter-evidence: `rotatingCaliper` performs no input-size validation and
no code path of it throws (its only reads of `hull` are the two coordinate
reads at line 22, and for 1- and 2-point inputs every array read stays
defined), so the embedding has no error channel.  On the 2-point input
`[(0,0),(1,0)]` the call silently returns the zero-area rectangle
`width = 1, height = 0, center = (0.5, 0), angle = π` instead of raising a
validation error.
-/
theorem rotatingCaliper_two_point_silent :
    (rotatingCaliper twoHull msInit).1.width = 1 ∧
    (rotatingCaliper twoHull msInit).1.height = 0 ∧
    (rotatingCaliper twoHull msInit).1.center = (1 / 2, 0) ∧
    (rotatingCaliper twoHull msInit).1.angle = Real.pi := by
  have hrun : (runCaliper twoHull msInit).1 =
      { u0 := ⟨-1, 0⟩, u1 := ⟨0, -1⟩, index := [0, 0, 1, 1], sqrLenU0 := 1, area := 0 } := by
    with_unfolding_all decide
  have hres : (rotatingCaliper twoHull msInit).1 =
      extract (mkVertices twoHull)
        { u0 := ⟨-1, 0⟩, u1 := ⟨0, -1⟩, index := [0, 0, 1, 1], sqrLenU0 := 1, area := 0 } := by
    unfold rotatingCaliper
    dsimp only
    rw [hrun]
  have hq0 : qlen ⟨-1, 0⟩ = 1 := by
    unfold qlen
    rw [show ((((-1 : ℚ)) : ℝ) * ((-1 : ℚ) : ℝ) + ((0 : ℚ) : ℝ) * ((0 : ℚ) : ℝ)) = 1 by
      push_cast; norm_num]
    exact Real.sqrt_one
  have hq1 : qlen ⟨0, -1⟩ = 1 := by
    unfold qlen
    rw [show ((((0 : ℚ)) : ℝ) * ((0 : ℚ) : ℝ) + ((-1 : ℚ) : ℝ) * ((-1 : ℚ) : ℝ)) = 1 by
      push_cast; norm_num]
    exact Real.sqrt_one
  have hn0 : normalizeV ⟨-1, 0⟩ = (-1, 0) := by
    unfold normalizeV
    rw [hq0]
    norm_num
  have hn1 : normalizeV ⟨0, -1⟩ = (0, -1) := by
    unfold normalizeV
    rw [hq1]
    norm_num
  have hatan : jsAtan2 0 (-1) = Real.pi := by
    unfold jsAtan2
    norm_num
  rw [hres]
  unfold extract
  dsimp only
  rw [hn0, hn1]
  norm_num [idxAt, vAt, mkVertices, twoHull, Vec2.sub, dotR, hatan]

/-! ## C3: the unit-aligned square scenario -/

lemma sqrt_four : Real.sqrt 4 = 2 := by
  rw [show (4 : ℝ) = 2 ^ 2 by norm_num]
  exact Real.sqrt_sq (by norm_num)

/-- Full evaluation of the run on the square input (shared by the C3
counterexample and the C3 amended theorem). -/
lemma sq_eval :
    (rotatingCaliper sqHull msInit).1.width = 2 ∧
    (rotatingCaliper sqHull msInit).1.height = 2 ∧
    (rotatingCaliper sqHull msInit).1.center = (1, 1) ∧
    (rotatingCaliper sqHull msInit).1.angle = -(Real.pi / 2) := by
  have hrun : (runCaliper sqHull msInit).1 =
      { u0 := ⟨0, -2⟩, u1 := ⟨2, 0⟩, index := [0, 1, 2, 3], sqrLenU0 := 4, area := 4 } := by
    with_unfolding_all decide
  have hres : (rotatingCaliper sqHull msInit).1 =
      extract (mkVertices sqHull)
        { u0 := ⟨0, -2⟩, u1 := ⟨2, 0⟩, index := [0, 1, 2, 3], sqrLenU0 := 4, area := 4 } := by
    unfold rotatingCaliper
    dsimp only
    rw [hrun]
  have hq0 : qlen ⟨0, -2⟩ = 2 := by
    unfold qlen
    rw [show ((((0 : ℚ)) : ℝ) * ((0 : ℚ) : ℝ) + ((-2 : ℚ) : ℝ) * ((-2 : ℚ) : ℝ)) = 4 by
      push_cast; norm_num]
    exact sqrt_four
  have hq1 : qlen ⟨2, 0⟩ = 2 := by
    unfold qlen
    rw [show ((((2 : ℚ)) : ℝ) * ((2 : ℚ) : ℝ) + ((0 : ℚ) : ℝ) * ((0 : ℚ) : ℝ)) = 4 by
      push_cast; norm_num]
    exact sqrt_four
  have hn0 : normalizeV ⟨0, -2⟩ = (0, -1) := by
    unfold normalizeV
    rw [hq0]
    norm_num
  have hn1 : normalizeV ⟨2, 0⟩ = (1, 0) := by
    unfold normalizeV
    rw [hq1]
    norm_num
  have hatan : jsAtan2 (-2) 0 = -(Real.pi / 2) := by
    unfold jsAtan2
    norm_num
  rw [hres]
  unfold extract
  dsimp only
  rw [hn0, hn1]
  norm_num [idxAt, vAt, mkVertices, sqHull, Vec2.sub, dotR, hatan]

lemma tri_eval :
    (rotatingCaliper triHull msInit).1.width = 103 / Real.sqrt 85 ∧
    (rotatingCaliper triHull msInit).1.center = ((716 : ℝ) / 85, (1939 : ℝ) / 170) ∧
    (rotatingCaliper triHull msInit).1.angle = Real.arctan (9 / 2) := by
  have hrun : (runCaliper triHull msInit).1 =
      { u0 := ⟨2, 9⟩, u1 := ⟨-9, 2⟩, index := [1, 0, 2, 2], sqrLenU0 := 85,
        area := -412 / 85 } := by
    with_unfolding_all decide
  have hres : (rotatingCaliper triHull msInit).1 =
      extract (mkVertices triHull)
        { u0 := ⟨2, 9⟩, u1 := ⟨-9, 2⟩, index := [1, 0, 2, 2], sqrLenU0 := 85,
          area := -412 / 85 } := by
    unfold rotatingCaliper
    dsimp only
    rw [hrun]
  have hs0 : (0 : ℝ) < Real.sqrt 85 := Real.sqrt_pos.mpr (by norm_num)
  have hs2 : Real.sqrt 85 * Real.sqrt 85 = 85 := Real.mul_self_sqrt (by norm_num)
  have hsne : Real.sqrt 85 ≠ 0 := ne_of_gt hs0
  have hq0 : qlen ⟨2, 9⟩ = Real.sqrt 85 := by
    unfold qlen
    rw [show ((((2 : ℚ)) : ℝ) * ((2 : ℚ) : ℝ) + ((9 : ℚ) : ℝ) * ((9 : ℚ) : ℝ)) = 85 by
      push_cast; norm_num]
  have hq1 : qlen ⟨-9, 2⟩ = Real.sqrt 85 := by
    unfold qlen
    rw [show ((((-9 : ℚ)) : ℝ) * ((-9 : ℚ) : ℝ) + ((2 : ℚ) : ℝ) * ((2 : ℚ) : ℝ)) = 85 by
      push_cast; norm_num]
  have hn0 : normalizeV ⟨2, 9⟩ = (2 / Real.sqrt 85, 9 / Real.sqrt 85) := by
    unfold normalizeV
    rw [hq0, if_neg hsne]
    norm_num
  have hn1 : normalizeV ⟨-9, 2⟩ = (-9 / Real.sqrt 85, 2 / Real.sqrt 85) := by
    unfold normalizeV
    rw [hq1, if_neg hsne]
    norm_num
  have hatan : jsAtan2 9 2 = Real.arctan (9 / 2) := by
    unfold jsAtan2
    rw [if_pos (by norm_num : (0 : ℚ) < 2)]
    norm_num
  rw [hres]
  unfold extract
  dsimp only
  rw [hn0, hn1]
  norm_num [idxAt, vAt, mkVertices, triHull, Vec2.sub, dotR, hatan]
  have hp2 : Real.sqrt 85 ^ 2 = 85 := Real.sq_sqrt (by norm_num)
  have hp4 : Real.sqrt 85 ^ 4 = 7225 := by
    rw [show (4 : ℕ) = 2 * 2 from rfl, pow_mul, hp2]
    norm_num
  have habs1 : |-(2 / Real.sqrt 85 * 2) + -(9 / Real.sqrt 85 * 11)| = 103 / Real.sqrt 85 := by
    rw [show -(2 / Real.sqrt 85 * 2) + -(9 / Real.sqrt 85 * 11) = -(103 / Real.sqrt 85) by
      field_simp
      ring_nf
      rw [hp2]
      norm_num]
    rw [abs_neg, abs_of_pos (by positivity)]
  have habs2 : |2 / Real.sqrt 85 * 2| = 4 / Real.sqrt 85 := by
    rw [abs_of_pos (by positivity)]
    ring
  refine ⟨habs1, ?_, ?_⟩
  · rw [habs1, habs2]
    field_simp
    ring_nf
    rw [hp2, hp4]
    norm_num
  · rw [habs1, habs2]
    field_simp
    ring_nf
    rw [hp2, hp4]
    norm_num

/--
C3 counterexample: on the square `[(0,0),(2,0),(2,2),(0,2)]` the returned
record is not `width 2, height 2, center (1,1), angle 0`: the initial box is
built on the edge from `(0,2)` to `(0,0)`, so the best box's `u0` is
`(0,−2)` and the returned `angle = atan2(−2, 0) = −π/2`, not `0`.
-/
theorem square_claim_false :
    ¬ ((rotatingCaliper sqHull msInit).1.width = 2 ∧
       (rotatingCaliper sqHull msInit).1.height = 2 ∧
       (rotatingCaliper sqHull msInit).1.center = (1, 1) ∧
       (rotatingCaliper sqHull msInit).1.angle = 0) := by
  intro h
  have h0 := h.2.2.2
  rw [sq_eval.2.2.2] at h0
  have hpi : Real.pi = 0 := by linarith
  exact Real.pi_ne_zero hpi

/--
C3 amended: on the square input the code returns `width = 2`, `height = 2`,
`center = (1, 1)` and `angle = −π/2` (the same square rectangle the claim
describes, with the primary axis pointing down instead of right).
-/
theorem square_result_amended :
    (rotatingCaliper sqHull msInit).1.width = 2 ∧
    (rotatingCaliper sqHull msInit).1.height = 2 ∧
    (rotatingCaliper sqHull msInit).1.center = (1, 1) ∧
    (rotatingCaliper sqHull msInit).1.angle = -(Real.pi / 2) := sq_eval

/-! ## C2: containment fails on a valid input -/

/-- Modelled from the spec (§8 Containment): the point `p` lies within the
rectangle determined by the returned `width`, `height`, `center` and `angle`
up to tolerance `tol`: its offsets from the center along the rectangle's
primary axis `(cos angle, sin angle)` and the perpendicular axis are at most
half the corresponding extent plus `tol`. -/
noncomputable def insideRect (r : RectResult) (tol : ℝ) (p : ℚ × ℚ) : Prop :=
  |((p.1 : ℝ) - r.center.1) * Real.cos r.angle + ((p.2 : ℝ) - r.center.2) * Real.sin r.angle| ≤
    r.width / 2 + tol ∧
  |((p.2 : ℝ) - r.center.2) * Real.cos r.angle - ((p.1 : ℝ) - r.center.1) * Real.sin r.angle| ≤
    r.height / 2 + tol

/--
C2 counter-evidence: on the valid, strictly convex, CCW triangle
`[(5,−5),(7,4),(7,6)]` the rectangle returned by `rotatingCaliper` does not
contain the input vertex `(5,−5)` — not even with tolerance 1, which is far
beyond floating-point rounding (the vertex lies about 11 units outside along
the primary axis).  Root cause: during the run, `sortAngles` sorts the
persistent 4-slot `angleInfo` buffer, and in the second loop iteration only
2 candidates are fresh while slot 2 still holds the first iteration's
candidate, whose `sinThetaSqr` is smaller than both fresh ones; that stale
candidate is selected as the minimal angle, the wrong support index is
advanced, and the box snapshotted as best has `area = −412/85 < 0` — its
support indices are not extremal for its basis.
-/
theorem rotatingCaliper_containment_violated :
    ¬ insideRect (rotatingCaliper triHull msInit).1 1 ((5 : ℚ), (-5 : ℚ)) := by
  have hs0 : (0 : ℝ) < Real.sqrt 85 := Real.sqrt_pos.mpr (by norm_num)
  have hsne : Real.sqrt 85 ≠ 0 := ne_of_gt hs0
  have hp2 : Real.sqrt 85 ^ 2 = 85 := Real.sq_sqrt (by norm_num)
  have hs103 : Real.sqrt 85 < 103 := by nlinarith [hp2, Real.sqrt_nonneg (85 : ℝ)]
  have hq : Real.sqrt (1 + (9 / 2 : ℝ) ^ 2) = Real.sqrt 85 / 2 := by
    rw [show (1 + (9 / 2 : ℝ) ^ 2) = (Real.sqrt 85 / 2) ^ 2 by
      rw [div_pow, div_pow, hp2]; norm_num]
    exact Real.sqrt_sq (by positivity)
  have hcos : Real.cos (Real.arctan (9 / 2)) = 2 / Real.sqrt 85 := by
    rw [Real.cos_arctan, hq]
    field_simp
  have hsin : Real.sin (Real.arctan (9 / 2)) = 9 / Real.sqrt 85 := by
    rw [Real.sin_arctan, hq]
    field_simp
  intro h
  unfold insideRect at h
  rcases tri_eval with ⟨hw, hc, ha⟩
  rw [hw, hc, ha] at h
  rcases h with ⟨h1, _⟩
  rw [hcos, hsin] at h1
  have hAeq : ((((5 : ℚ), (-5 : ℚ)).1 : ℝ) - (716 : ℝ) / 85) * (2 / Real.sqrt 85) +
      ((((5 : ℚ), (-5 : ℚ)).2 : ℝ) - (1939 : ℝ) / 170) * (9 / Real.sqrt 85) =
      -((309 / 2) / Real.sqrt 85) := by
    push_cast
    field_simp
    ring
  rw [hAeq, abs_neg, abs_of_pos (by positivity)] at h1
  have h3 := mul_le_mul_of_nonneg_right h1 (le_of_lt hs0)
  rw [div_mul_cancel₀ _ hsne] at h3
  have h4 : (103 / Real.sqrt 85 / 2 + 1) * Real.sqrt 85 = 103 / 2 + Real.sqrt 85 := by
    field_simp
    ring
  rw [h4] at h3
  linarith

end RotCal

